import Mathlib

/-!
Verification development for the recursive version control system.

The repository consists of the command-line layer (`command/commands.go`) and
the snapshot package's storage model (`snapshot/snapshot_test.go`, which
implements the full `storageForTest` collaborator used by the snapshot
engine).  The snapshot engine itself (`Current`, the `Hash`/`File` codec and
`ParseHash`) is specified in the design document; those parts are modelled
here from the specification, as noted on each definition.

Machine integers do not occur in the modelled code paths: hashes, sizes and
modes are unbounded naturals in Go's semantics for this code (byte slices,
`os.FileMode` values used opaquely), and times are modelled as integers.
-/

namespace Rvcs

/-- Decidable equality for `Except` results, needed so that concrete runs of
the modelled operations can be checked by `decide`. -/
instance {ε α : Type} [DecidableEq ε] [DecidableEq α] : DecidableEq (Except ε α) := fun a b =>
  match a, b with
  | .ok x, .ok y =>
    if h : x = y then .isTrue (by rw [h]) else .isFalse (by intro he; cases he; exact h rfl)
  | .error x, .error y =>
    if h : x = y then .isTrue (by rw [h]) else .isFalse (by intro he; cases he; exact h rfl)
  | .ok _, .error _ => .isFalse (by intro he; cases he)
  | .error _, .ok _ => .isFalse (by intro he; cases he)

/-- Filesystem location, used as the key of the path-to-latest-hash index
(`snapshot.Path` is a string type in the snapshot package). -/
abbrev Path := String

/-- Modelled from the spec: a `Hash` is the digest of a byte sequence under a
cryptographic hash function whose only assumed property is determinism plus
collision-freedom.  The model idealises the digest as the byte sequence
itself, which realises exactly those two properties. -/
structure Hash where
  digest : List Nat
deriving DecidableEq

/-- Modelled from the spec: the deterministic, collision-free digest function
(`snapshot.NewHash` reading an in-memory byte stream). -/
def hashBytes (bs : List Nat) : Hash := ⟨bs⟩

/-- Cheap filesystem metadata for a path, as consumed by the change-detection
cache: the file identity compared by `os.SameFile` (device/inode) and the
modification time (`os.FileInfo.ModTime`, an instant modelled as an integer). -/
structure FileInfo where
  fileId : Nat
  modTime : Int
deriving DecidableEq

/-- Model of `os.SameFile`: two metadata records describe the same file when
their identities coincide. -/
def sameFile (a b : FileInfo) : Bool := a.fileId == b.fileId

/-- Modelled from the spec: the two variants of a snapshot node; a regular
file leaf carries its content hash and mode bits, a directory interior node
carries the ordered child-name-to-hash mapping. -/
inductive FileKind where
  | regular (contents : Hash) (mode : Nat)
  | directory (children : List (String × Hash))
deriving DecidableEq

/-- Modelled from the spec: a snapshot node (`snapshot.File`) is its kind
together with the ordered sequence of parent hashes (first parent is the
primary line of history). -/
structure File where
  kind : FileKind
  parents : List Hash
deriving DecidableEq

/-! Canonical serialization of `File` values.

Modelled from the spec: `serialize(File) -> bytes` must be canonical (a given
logical `File` always yields the same bytes, because those bytes are hashed
to form the node's identity) and `parse(bytes) -> File` must fail on
malformed input.  The byte-level layout below is self-delimiting: every
natural number is written as its little-endian base-255 digits followed by
the terminator byte 255, and every list is preceded by its length. -/

/-- Little-endian base-255 digits of `n`, computed with structural fuel so
that concrete serializations reduce inside the kernel. -/
def natDigitsAux : Nat → Nat → List Nat
  | _, 0 => []
  | 0, _ + 1 => []
  | fuel + 1, n + 1 => ((n + 1) % 255) :: natDigitsAux fuel ((n + 1) / 255)

/-- Little-endian base-255 digits of a natural number. -/
def natDigits (n : Nat) : List Nat := natDigitsAux n n

/-- Value of a little-endian base-255 digit list. -/
def natUndigits : List Nat → Nat
  | [] => 0
  | d :: ds => d + 255 * natUndigits ds

/-- Encoding of one natural number: its base-255 digits, then the terminator
byte 255. -/
def encNat (n : Nat) : List Nat := natDigits n ++ [255]

/-- Decoding of one natural number; returns the value and the remaining
bytes, or `none` when no terminator is present. -/
def decNat (bs : List Nat) : Option (Nat × List Nat) :=
  match bs.dropWhile (fun b => b != 255) with
  | _ :: rest => some (natUndigits (bs.takeWhile (fun b => b != 255)), rest)
  | [] => none

/-- Encoding of a fixed-length run of natural numbers. -/
def encNatSeq (l : List Nat) : List Nat := (l.map encNat).flatten

/-- Decoding of a fixed-length run of natural numbers. -/
def decNatSeq : Nat → List Nat → Option (List Nat × List Nat)
  | 0, bs => some ([], bs)
  | k + 1, bs =>
    match decNat bs with
    | none => none
    | some (v, bs1) =>
      match decNatSeq k bs1 with
      | none => none
      | some (vs, bs2) => some (v :: vs, bs2)

/-- Encoding of a length-prefixed list of natural numbers. -/
def encNatList (l : List Nat) : List Nat := encNat l.length ++ encNatSeq l

/-- Decoding of a length-prefixed list of natural numbers. -/
def decNatList (bs : List Nat) : Option (List Nat × List Nat) :=
  match decNat bs with
  | none => none
  | some (k, bs1) => decNatSeq k bs1

/-- Encoding of a hash: its digest as a length-prefixed list. -/
def encHash (h : Hash) : List Nat := encNatList h.digest

/-- Decoding of a hash. -/
def decHash (bs : List Nat) : Option (Hash × List Nat) :=
  match decNatList bs with
  | none => none
  | some (ds, rest) => some (⟨ds⟩, rest)

/-- Encoding of a string: its character codes as a length-prefixed list. -/
def encString (s : String) : List Nat := encNatList (s.data.map Char.toNat)

/-- Decoding of a string. -/
def decString (bs : List Nat) : Option (String × List Nat) :=
  match decNatList bs with
  | none => none
  | some (cs, rest) => some (String.mk (cs.map Char.ofNat), rest)

/-- Encoding of one directory entry: child name, then child hash. -/
def encEntry (e : String × Hash) : List Nat := encString e.1 ++ encHash e.2

/-- Decoding of one directory entry. -/
def decEntry (bs : List Nat) : Option ((String × Hash) × List Nat) :=
  match decString bs with
  | none => none
  | some (n, bs1) =>
    match decHash bs1 with
    | none => none
    | some (h, bs2) => some ((n, h), bs2)

/-- Decoding of a fixed-length run of directory entries. -/
def decEntrySeq : Nat → List Nat → Option (List (String × Hash) × List Nat)
  | 0, bs => some ([], bs)
  | k + 1, bs =>
    match decEntry bs with
    | none => none
    | some (e, bs1) =>
      match decEntrySeq k bs1 with
      | none => none
      | some (es, bs2) => some (e :: es, bs2)

/-- Decoding of a fixed-length run of hashes. -/
def decHashSeq : Nat → List Nat → Option (List Hash × List Nat)
  | 0, bs => some ([], bs)
  | k + 1, bs =>
    match decHash bs with
    | none => none
    | some (h, bs1) =>
      match decHashSeq k bs1 with
      | none => none
      | some (hs, bs2) => some (h :: hs, bs2)

/-- Modelled from the spec: the canonical serialization of a snapshot node
(the byte form produced by `File.String`); a kind tag, the kind's payload,
then the length-prefixed parent hashes. -/
def serializeFile (f : File) : List Nat :=
  (match f.kind with
   | .regular c m => 0 :: (encHash c ++ encNat m)
   | .directory ch => 1 :: (encNat ch.length ++ (ch.map encEntry).flatten))
  ++ encNat f.parents.length ++ (f.parents.map encHash).flatten

/-- Decoding of a snapshot node, returning the node and remaining bytes. -/
def decFile (bs : List Nat) : Option (File × List Nat) :=
  match bs with
  | 0 :: bs1 =>
    (match decHash bs1 with
     | none => none
     | some (c, bs2) =>
       match decNat bs2 with
       | none => none
       | some (m, bs3) =>
         match decNat bs3 with
         | none => none
         | some (np, bs4) =>
           match decHashSeq np bs4 with
           | none => none
           | some (ps, bs5) => some (⟨.regular c m, ps⟩, bs5))
  | 1 :: bs1 =>
    (match decNat bs1 with
     | none => none
     | some (nc, bs2) =>
       match decEntrySeq nc bs2 with
       | none => none
       | some (ch, bs3) =>
         match decNat bs3 with
         | none => none
         | some (np, bs4) =>
           match decHashSeq np bs4 with
           | none => none
           | some (ps, bs5) => some (⟨.directory ch, ps⟩, bs5))
  | _ => none

/-- Error text for malformed serialized snapshots. -/
def errMalformed : String := "malformed snapshot"

/-- Modelled from the spec: `parse(bytes) -> File`, failing with a format
error on malformed input (wrong shape, trailing bytes). -/
def ParseFile (bs : List Nat) : Except String File :=
  match decFile bs with
  | some (f, []) => .ok f
  | some (_, _ :: _) => .error errMalformed
  | none => .error errMalformed

/-! Storage model.

This embeds the `storageForTest` collaborator of `snapshot/snapshot_test.go`,
the repository's full implementation of the storage interface consumed by the
snapshot engine.  Go's nilable maps are modelled as `Option` association
lists, and the nilable `*storageForTest` receiver as an `Option` of the
state; each mutating method returns the updated state explicitly.  The mutex
only serialises concurrent access and has no sequential behavior. -/

/-- Lookup in an association list, first binding wins (Go map read). -/
def alookup {α β : Type} [DecidableEq α] : List (α × β) → α → Option β
  | [], _ => none
  | (k', v) :: t, k => if k = k' then some v else alookup t k

/-- Map assignment on an association list (Go map write): the key is bound
to the new value and any previous binding for it is dropped. -/
def upsert {α β : Type} [DecidableEq α] (l : List (α × β)) (k : α) (v : β) : List (α × β) :=
  (k, v) :: l.filter (fun e => decide (e.1 ≠ k))

/-- Read through a nilable map (a nil Go map reads as empty). -/
def mapLookup {α β : Type} [DecidableEq α] (m : Option (List (α × β))) (k : α) : Option β :=
  match m with
  | none => none
  | some l => alookup l k

/-- Write through a nilable map (Go code allocates the map when nil, then
assigns; allocating and assigning is assigning into the empty map). -/
def mapInsert {α β : Type} [DecidableEq α] (m : Option (List (α × β))) (k : α) (v : β) :
    Option (List (α × β)) :=
  some (upsert (m.getD []) k v)

/-- Persistent storage of snapshots (`storageForTest`): the content-addressed
object table, the path-to-latest-hash index, and the two change-detection
cache maps.  A fresh `&storageForTest{}` has every map nil. -/
structure StorageForTest where
  objects : Option (List (Hash × List Nat))
  snapshots : Option (List (Path × Hash))
  cache : Option (List (Path × FileInfo))
  cacheModTime : Option (List (Path × Int))
deriving DecidableEq

/-- Error text returned by every storage method on a nil receiver. -/
def errStorageNotSet : String := "storage is not set"

/-- Error text of `FindSnapshot` when the indexed object is missing. -/
def errReadContents : String := "failure reading the contents of the snapshot hash"

/-- Error text of `FindSnapshot` when the stored snapshot fails to parse. -/
def errParseSaved : String := "failure parsing the previously saved snapshot"

/-- Method `storageForTest.StoreObject`: on a nil receiver fail; otherwise
hash the bytes, record them in the object table under that hash, and return
the hash. -/
def StoreObject (s : Option StorageForTest) (bs : List Nat) :
    Except String Hash × Option StorageForTest :=
  match s with
  | none => (.error errStorageNotSet, none)
  | some st =>
    (.ok (hashBytes bs), some { st with objects := mapInsert st.objects (hashBytes bs) bs })

/-- Method `storageForTest.Exclude`: no path is excluded (a nil receiver is
never dereferenced). -/
def Exclude (_ : Option StorageForTest) (_ : Path) : Bool := false

/-- Method `storageForTest.FindSnapshot`: on a nil receiver fail; with a nil
snapshot index or object table report absence; otherwise follow the index,
read the object bytes and parse them, reporting a missing object or a parse
failure as errors and an unindexed path as absence. -/
def FindSnapshot (s : Option StorageForTest) (p : Path) :
    Except String (Option (Hash × File)) :=
  match s with
  | none => .error errStorageNotSet
  | some st =>
    match st.snapshots, st.objects with
    | none, _ => .ok none
    | some _, none => .ok none
    | some snaps, some objs =>
      match alookup snaps p with
      | none => .ok none
      | some h =>
        match alookup objs h with
        | none => .error errReadContents
        | some bs =>
          match ParseFile bs with
          | .error e => .error (errParseSaved ++ e)
          | .ok f => .ok (some (h, f))

/-- Method `storageForTest.StoreSnapshot`: on a nil receiver fail; otherwise
store the serialized `File` as an object and advance the path index to the
resulting hash. -/
def StoreSnapshot (s : Option StorageForTest) (p : Path) (f : File) :
    Except String Hash × Option StorageForTest :=
  match s with
  | none => (.error errStorageNotSet, none)
  | some st =>
    match StoreObject (some st) (serializeFile f) with
    | (.error e, s1) => (.error e, s1)
    | (.ok _, none) => (.error errStorageNotSet, none)
    | (.ok h, some st1) => (.ok h, some { st1 with snapshots := mapInsert st1.snapshots p h })

/-- Method `storageForTest.CachePathInfo`: on a nil receiver fail; otherwise
record the path's metadata and its modification time in the two cache maps. -/
def CachePathInfo (s : Option StorageForTest) (p : Path) (info : FileInfo) :
    Except String Unit × Option StorageForTest :=
  match s with
  | none => (.error errStorageNotSet, none)
  | some st =>
    (.ok (), some { st with cache := mapInsert st.cache p info,
                            cacheModTime := mapInsert st.cacheModTime p info.modTime })

/-- Method `storageForTest.PathInfoMatchesCache`: false on a nil receiver, a
nil cache map, a missing cache entry or a missing cached modification time;
otherwise true exactly when the cached metadata denotes the same file
(`os.SameFile`) and the cached modification time equals the current one. -/
def PathInfoMatchesCache (s : Option StorageForTest) (p : Path) (info : FileInfo) : Bool :=
  match s with
  | none => false
  | some st =>
    match st.cache with
    | none => false
    | some c =>
      match alookup c p with
      | none => false
      | some cached =>
        match mapLookup st.cacheModTime p with
        | none => false
        | some cmt => sameFile cached info && cmt == info.modTime

/-! Snapshot builder.

Modelled from the spec: the engine `Current` is absent from the available
sources (only its unit test is present), so the algorithm of section 4.3 is
modelled here for a path denoting a regular file — the case the claims and
the cited test `TestCurrentSingleFile` exercise.  The file's observable
state (content bytes, mode, stat metadata) is passed explicitly in place of
filesystem reads. -/

/-- Leaf snapshot node built by the engine for a regular file. -/
def snapLeaf (contentHash : Hash) (mode : Nat) (parents : List Hash) : File :=
  ⟨.regular contentHash mode, parents⟩

/-- Check of the dedup rule: the prior node is a regular-file leaf whose
content hash equals the freshly computed one. -/
def sameLeafContent (f : File) (contentHash : Hash) : Bool :=
  match f.kind with
  | .regular c _ => c == contentHash
  | .directory _ => false

/-- Persist path of the builder: build the new leaf, store it via
`StoreSnapshot`, then cache the observed metadata. -/
def persistNew (s : Option StorageForTest) (p : Path) (info : FileInfo)
    (contentHash : Hash) (mode : Nat) (parents : List Hash) :
    Except String (Option (Hash × File)) × Option StorageForTest :=
  match StoreSnapshot s p (snapLeaf contentHash mode parents) with
  | (.error e, s1) => (.error e, s1)
  | (.ok h, s1) =>
    match CachePathInfo s1 p info with
    | (.error e, s2) => (.error e, s2)
    | (.ok _, s2) => (.ok (some (h, snapLeaf contentHash mode parents)), s2)

/-- Change-or-persist step of the builder once the content hash is known:
fetch the prior snapshot; if it is a leaf with the same content hash the
node is reused and only the metadata cache is refreshed, otherwise a new
leaf is persisted whose first parent is the prior hash (no parents when the
path was never snapshotted). -/
def finishSnapshot (s : Option StorageForTest) (p : Path) (info : FileInfo)
    (contentHash : Hash) (mode : Nat) :
    Except String (Option (Hash × File)) × Option StorageForTest :=
  match FindSnapshot s p with
  | .error e => (.error e, s)
  | .ok (some (ph, pf)) =>
    if sameLeafContent pf contentHash then
      match CachePathInfo s p info with
      | (.error e, s1) => (.error e, s1)
      | (.ok _, s1) => (.ok (some (ph, pf)), s1)
    else persistNew s p info contentHash mode [ph]
  | .ok none => persistNew s p info contentHash mode []

/-- Modelled from the spec: the snapshot builder `Current` at a regular-file
path.  Excluded paths never enter the graph; when the observed metadata
matches the change-detection cache the prior snapshot is returned verbatim
with no read of the content; otherwise the content is hashed and stored and
the dedup-or-persist step runs. -/
def Current (s : Option StorageForTest) (p : Path) (content : List Nat) (mode : Nat)
    (info : FileInfo) : Except String (Option (Hash × File)) × Option StorageForTest :=
  if Exclude s p then (.ok none, s)
  else if PathInfoMatchesCache s p info then (FindSnapshot s p, s)
  else
    match StoreObject s content with
    | (.error e, s1) => (.error e, s1)
    | (.ok contentHash, s1) => finishSnapshot s1 p info contentHash mode

/-! Command-line layer, embedded from `command/commands.go`. -/

/-- Textual tag opening every canonical hash literal. -/
def hashTag : List Char := ['s', 'h', 'a', '2', '5', '6', ':']

/-- Error text of `ParseHash` on a string that is not a hash literal. -/
def errBadHash : String := "invalid hash"

/-- Modelled from the spec: `snapshot.ParseHash` parses the canonical string
form of a `Hash` — the digest rendered in its tagged textual encoding — and
fails on any other string. -/
def ParseHash (name : String) : Except String Hash :=
  if hashTag.isPrefixOf name.data then
    match name.data.drop hashTag.length with
    | [] => .error errBadHash
    | c :: cs =>
      if (c :: cs).all Char.isDigit then .ok ⟨(c :: cs).map Char.toNat⟩
      else .error errBadHash
  else .error errBadHash

/-- Error text of `resolveSnapshot` when the absolute path cannot be formed. -/
def errAbsPath : String := "failure resolving the absolute path"

/-- Error text of `resolveSnapshot` when the name resolves to nothing. -/
def errUnresolved : String := "unable to resolve the hash corresponding to the name"

/-- Function `resolveSnapshot` of `command/commands.go`: parse the name as a
hash literal; failing that, resolve it to an absolute path (`filepath.Abs`,
passed in as `abs`) and look that path up in storage, returning whatever
hash — possibly none — the lookup yields when it does not error.  The Go
return pair `(*Hash, error)` is modelled as `Option Hash × Option String`. -/
def resolveSnapshot (abs : String → Except String String) (s : Option StorageForTest)
    (name : String) : Option Hash × Option String :=
  match ParseHash name with
  | .ok h => (some h, none)
  | .error _ =>
    match abs name with
    | .error _ => (none, some errAbsPath)
    | .ok a =>
      match FindSnapshot s a with
      | .ok r => (r.map Prod.fst, none)
      | .error _ => (none, some errUnresolved)

/-- Behaviour of one subcommand: from the program name and the remaining
arguments to an exit code and an optional error. -/
abbrev Subcommand := String → List String → Int × Option String

/-- Subcommand table of `command/commands.go`: exactly the four names
`export`, `log`, `merge` and `snapshot` are bound. -/
def commandMap (cExport cLog cMerge cSnapshot : Subcommand) : String → Option Subcommand :=
  fun n =>
    if n = "export" then some cExport
    else if n = "log" then some cLog
    else if n = "merge" then some cMerge
    else if n = "snapshot" then some cSnapshot
    else none

/-- Usage text printed by `Run`, parameterised by the program name. -/
def usageText (prog : String) : String :=
  "Usage: " ++ prog ++ " <SUBCOMMAND>"

/-- Text printed by `Run` for an unknown subcommand name. -/
def unknownSubcommandText (sub : String) : String :=
  "Unknown subcommand " ++ sub

/-- Text printed by `Run` when a subcommand returns an error. -/
def subcommandFailureText (sub : String) : String :=
  "Failure running the " ++ sub ++ " subcommand"

/-- Function `Run` of `command/commands.go`.  The Go `args` slice is
`os.Args`, documented to carry the program name first; it is modelled as
`prog :: rest`, so `rest = []` is Go's `len(args) < 2`.  With no subcommand
name the usage text is printed and 1 returned; with an unknown name the
unknown-subcommand line plus the usage text are printed and 1 returned;
otherwise the subcommand runs, its error (if any) is printed, and its own
exit code is returned.  Printed lines are collected in the second
component. -/
def Run (cmds : String → Option Subcommand) (prog : String) (rest : List String) :
    Int × List String :=
  match rest with
  | [] => (1, [usageText prog])
  | sub :: cargs =>
    match cmds sub with
    | none => (1, [unknownSubcommandText sub, usageText prog])
    | some cmd =>
      match cmd prog cargs with
      | (ret, some e) => (ret, [subcommandFailureText sub ++ e])
      | (ret, none) => (ret, [])

/-! Concrete inputs used by the witness theorems below. -/

/-- Fresh storage, `&storageForTest{}`: every map nil. -/
def emptyStorage : StorageForTest := ⟨none, none, none, none⟩

/-- Concrete path of a snapshotted file. -/
def pW : Path := "/home/user/example.txt"

/-- Metadata observed at the first snapshot of the concrete file. -/
def infoW : FileInfo := ⟨7, 100⟩

/-- Metadata observed after the concrete file was rewritten (same identity,
later modification time). -/
def infoW2 : FileInfo := ⟨7, 200⟩

/-- Initial content bytes of the concrete file. -/
def contentW : List Nat := [104, 105]

/-- Replacement content bytes of the concrete file. -/
def contentW2 : List Nat := [98, 121, 101]

/-- Snapshot node recorded for the initial content. -/
def fileW : File := snapLeaf (hashBytes contentW) 448 []

/-- Serialized bytes of the initial snapshot node. -/
def bytesW : List Nat := serializeFile fileW

/-- Hash of the initial snapshot node. -/
def hashW : Hash := hashBytes bytesW

/-- Storage state holding the initial snapshot of the concrete file. -/
def storeW : StorageForTest := ⟨some [(hashW, bytesW)], some [(pW, hashW)], none, none⟩

/-- Storage state produced by one run of the builder from fresh storage; its
change-detection cache holds the metadata of the concrete file. -/
def sC3 : Option StorageForTest := (Current (some emptyStorage) pW contentW 448 infoW).2

/-- Concrete command-line name that is neither a hash literal nor a
snapshotted path. -/
def nameW : String := "example.txt"

/-- Working directory used by the concrete absolute-path resolver. -/
def cwdW : String := "/cwd/"

/-- Concrete model of `filepath.Abs`: always succeeds, anchoring relative
names at the working directory. -/
def absW : String → Except String String := fun n => .ok (cwdW ++ n)

/-- Concrete valid hash literal. -/
def hashNameW : String := "sha256:12"

/-- Hash denoted by the concrete literal. -/
def hashValW : Hash := ⟨[49, 50]⟩

/-- Concrete subcommand that always succeeds. -/
def cGoodW : Subcommand := fun _ _ => (0, none)

/-- Concrete program name. -/
def progW : String := "rvcs"

/-! Round-trip lemmas for the codec. -/

/-- Digits produced by the fuelled base-255 conversion are genuine base-255
digits. -/
theorem natDigitsAux_lt : ∀ fuel n d, d ∈ natDigitsAux fuel n → d < 255 := by
  intro fuel
  induction fuel with
  | zero =>
    intro n d hd
    cases n <;> simp [natDigitsAux] at hd
  | succ k ih =>
    intro n d hd
    cases n with
    | zero => simp [natDigitsAux] at hd
    | succ m =>
      simp only [natDigitsAux, List.mem_cons] at hd
      rcases hd with h | h
      · subst h
        exact Nat.mod_lt _ (by norm_num)
      · exact ih _ _ h

/-- Enough fuel makes the fuelled conversion exact. -/
theorem natUndigits_natDigitsAux :
    ∀ fuel n, n ≤ fuel → natUndigits (natDigitsAux fuel n) = n := by
  intro fuel
  induction fuel with
  | zero =>
    intro n hn
    have hz : n = 0 := by omega
    subst hz
    simp [natDigitsAux, natUndigits]
  | succ k ih =>
    intro n hn
    cases n with
    | zero => simp [natDigitsAux, natUndigits]
    | succ m =>
      have hdiv : (m + 1) / 255 ≤ k := by
        have := Nat.div_lt_self (Nat.succ_pos m) (by norm_num : 1 < 255)
        omega
      simp only [natDigitsAux, natUndigits]
      rw [ih ((m + 1) / 255) hdiv]
      exact Nat.mod_add_div (m + 1) 255

/-- Digit extraction inverts digit production. -/
theorem natUndigits_natDigits (n : Nat) : natUndigits (natDigits n) = n :=
  natUndigits_natDigitsAux n n (Nat.le_refl n)

/-- Every base-255 digit passes the non-terminator test. -/
theorem bne_of_lt {x : Nat} (hx : x < 255) : (x != 255) = true := by
  simp only [bne_iff_ne, ne_eq]
  omega

/-- Taking non-terminator bytes from an encoded run stops exactly at the
terminator. -/
theorem takeWhile_term :
    ∀ (l rest : List Nat), (∀ x ∈ l, (x != 255) = true) →
      (l ++ 255 :: rest).takeWhile (fun b => b != 255) = l := by
  intro l
  induction l with
  | nil => intro rest _; simp [List.takeWhile]
  | cons a t ih =>
    intro rest h
    simp only [List.cons_append, List.takeWhile_cons]
    rw [h a (by simp)]
    simp only [if_true]
    rw [ih rest (fun y hy => h y (by simp [hy]))]

/-- Dropping non-terminator bytes from an encoded run lands on the
terminator. -/
theorem dropWhile_term :
    ∀ (l rest : List Nat), (∀ x ∈ l, (x != 255) = true) →
      (l ++ 255 :: rest).dropWhile (fun b => b != 255) = 255 :: rest := by
  intro l
  induction l with
  | nil => intro rest _; simp [List.dropWhile]
  | cons a t ih =>
    intro rest h
    simp only [List.cons_append, List.dropWhile_cons]
    rw [h a (by simp)]
    simp only [if_true]
    rw [ih rest (fun y hy => h y (by simp [hy]))]

/-- Decoding inverts the encoding of one natural number. -/
theorem decNat_encNat (n : Nat) (rest : List Nat) :
    decNat (encNat n ++ rest) = some (n, rest) := by
  have hall : ∀ x ∈ natDigits n, (x != 255) = true := fun x hx =>
    bne_of_lt (natDigitsAux_lt n n x hx)
  have hsplit : encNat n ++ rest = natDigits n ++ 255 :: rest := by
    simp [encNat]
  rw [hsplit]
  unfold decNat
  rw [takeWhile_term (natDigits n) rest hall, dropWhile_term (natDigits n) rest hall]
  simp [natUndigits_natDigits]

/-- Decoding inverts the encoding of a fixed-length run of naturals. -/
theorem decNatSeq_enc :
    ∀ (l rest : List Nat), decNatSeq l.length (encNatSeq l ++ rest) = some (l, rest) := by
  intro l
  induction l with
  | nil => intro rest; simp [encNatSeq, decNatSeq]
  | cons a t ih =>
    intro rest
    have hshape : encNatSeq (a :: t) ++ rest = encNat a ++ (encNatSeq t ++ rest) := by
      simp [encNatSeq]
    rw [hshape]
    simp only [List.length_cons, decNatSeq, decNat_encNat, ih]

/-- Decoding inverts the encoding of a length-prefixed list of naturals. -/
theorem decNatList_enc (l rest : List Nat) :
    decNatList (encNatList l ++ rest) = some (l, rest) := by
  have hshape : encNatList l ++ rest = encNat l.length ++ (encNatSeq l ++ rest) := by
    simp [encNatList]
  rw [hshape]
  simp only [decNatList, decNat_encNat, decNatSeq_enc]

/-- Decoding inverts the encoding of a hash. -/
theorem decHash_enc (h : Hash) (rest : List Nat) :
    decHash (encHash h ++ rest) = some (h, rest) := by
  simp only [decHash, encHash, decNatList_enc]

/-- Decoding inverts the encoding of a string. -/
theorem decString_enc (s : String) (rest : List Nat) :
    decString (encString s ++ rest) = some (s, rest) := by
  simp only [decString, encString, decNatList_enc]
  have hchars : (s.data.map Char.toNat).map Char.ofNat = s.data := by
    rw [List.map_map]
    have h2 : ∀ c ∈ s.data, (Char.ofNat ∘ Char.toNat) c = c := fun c _ => Char.ofNat_toNat c
    rw [List.map_congr_left h2]
    simp
  rw [hchars]

/-- Decoding inverts the encoding of a directory entry. -/
theorem decEntry_enc (e : String × Hash) (rest : List Nat) :
    decEntry (encEntry e ++ rest) = some (e, rest) := by
  have hshape : encEntry e ++ rest = encString e.1 ++ (encHash e.2 ++ rest) := by
    simp [encEntry]
  rw [hshape]
  simp only [decEntry, decString_enc, decHash_enc]

/-- Decoding inverts the encoding of a run of directory entries. -/
theorem decEntrySeq_enc :
    ∀ (ch : List (String × Hash)) (rest : List Nat),
      decEntrySeq ch.length ((ch.map encEntry).flatten ++ rest) = some (ch, rest) := by
  intro ch
  induction ch with
  | nil => intro rest; simp [decEntrySeq]
  | cons e t ih =>
    intro rest
    have hshape : ((e :: t).map encEntry).flatten ++ rest
        = encEntry e ++ ((t.map encEntry).flatten ++ rest) := by
      simp
    rw [hshape]
    simp only [List.length_cons, decEntrySeq, decEntry_enc, ih]

/-- Decoding inverts the encoding of a run of hashes. -/
theorem decHashSeq_enc :
    ∀ (hs : List Hash) (rest : List Nat),
      decHashSeq hs.length ((hs.map encHash).flatten ++ rest) = some (hs, rest) := by
  intro hs
  induction hs with
  | nil => intro rest; simp [decHashSeq]
  | cons h t ih =>
    intro rest
    have hshape : ((h :: t).map encHash).flatten ++ rest
        = encHash h ++ ((t.map encHash).flatten ++ rest) := by
      simp
    rw [hshape]
    simp only [List.length_cons, decHashSeq, decHash_enc, ih]

/-- Decoding inverts serialization, leaving trailing bytes untouched. -/
theorem decFile_serializeFile (f : File) (rest : List Nat) :
    decFile (serializeFile f ++ rest) = some (f, rest) := by
  obtain ⟨k, ps⟩ := f
  cases k with
  | regular c m =>
    have hshape : serializeFile ⟨.regular c m, ps⟩ ++ rest
        = 0 :: (encHash c ++ (encNat m ++ (encNat ps.length ++ ((ps.map encHash).flatten ++ rest)))) := by
      simp [serializeFile]
    rw [hshape]
    simp only [decFile, decHash_enc, decNat_encNat, decHashSeq_enc]
  | directory ch =>
    have hshape : serializeFile ⟨.directory ch, ps⟩ ++ rest
        = 1 :: (encNat ch.length ++ ((ch.map encEntry).flatten
            ++ (encNat ps.length ++ ((ps.map encHash).flatten ++ rest)))) := by
      simp [serializeFile]
    rw [hshape]
    simp only [decFile, decNat_encNat, decEntrySeq_enc, decHashSeq_enc]

/-- Parsing inverts serialization (the round-trip law). -/
theorem parseFile_serializeFile (f : File) : ParseFile (serializeFile f) = .ok f := by
  have h := decFile_serializeFile f []
  rw [List.append_nil] at h
  simp [ParseFile, h]

/-! Lemmas about the association-list maps. -/

/-- Removing the bindings of an unrelated key does not change a lookup. -/
theorem alookup_filter_ne {α β : Type} [DecidableEq α] (l : List (α × β)) (k k' : α)
    (hne : k' ≠ k) :
    alookup (l.filter (fun e => decide (e.1 ≠ k))) k' = alookup l k' := by
  induction l with
  | nil => rfl
  | cons e t ih =>
    obtain ⟨ek, ev⟩ := e
    simp only [List.filter_cons]
    by_cases hek : ek = k
    · subst hek
      have hdec : decide ((ek, ev).1 ≠ ek) = false := by simp
      rw [hdec]
      simp only [Bool.false_eq_true, if_false]
      have hgoal : alookup ((ek, ev) :: t) k' = alookup t k' := by
        simp only [alookup]
        rw [if_neg hne]
      rw [hgoal]
      exact ih
    · have hdec : decide ((ek, ev).1 ≠ k) = true := by simp [hek]
      rw [hdec]
      simp only [if_true]
      by_cases hk' : k' = ek
      · simp [alookup, hk']
      · simp only [alookup]
        rw [if_neg hk', if_neg hk']
        exact ih

/-- Lookup after a map write: the written key reads the new value, every
other key is unchanged. -/
theorem alookup_upsert {α β : Type} [DecidableEq α] (l : List (α × β)) (k k' : α) (v : β) :
    alookup (upsert l k v) k' = if k' = k then some v else alookup l k' := by
  by_cases h : k' = k
  · simp [upsert, alookup, h]
  · have hstep : alookup (upsert l k v) k'
        = alookup (l.filter (fun e => decide (e.1 ≠ k))) k' := by
      simp only [upsert, alookup]
      rw [if_neg h]
    rw [hstep, if_neg h]
    exact alookup_filter_ne l k k' h

/-- Writing the same binding twice is the same as writing it once. -/
theorem upsert_upsert_self {α β : Type} [DecidableEq α] (l : List (α × β)) (k : α) (v : β) :
    upsert (upsert l k v) k v = upsert l k v := by
  unfold upsert
  simp only [List.filter_cons]
  have hdec : decide ((k, v).1 ≠ k) = false := by simp
  rw [hdec]
  simp [List.filter_filter]

/-- Lookup through a nilable map after a write. -/
theorem mapLookup_mapInsert {α β : Type} [DecidableEq α] (m : Option (List (α × β)))
    (k k' : α) (v : β) :
    mapLookup (mapInsert m k v) k' = if k' = k then some v else mapLookup m k' := by
  cases m with
  | none => simp [mapInsert, mapLookup, alookup_upsert, alookup]
  | some l => simp [mapInsert, mapLookup, alookup_upsert]

/-- Writing the same binding twice through a nilable map is one write. -/
theorem mapInsert_mapInsert_self {α β : Type} [DecidableEq α] (m : Option (List (α × β)))
    (k : α) (v : β) :
    mapInsert (mapInsert m k v) k v = mapInsert m k v := by
  simp [mapInsert, upsert_upsert_self]

/-! Lemmas about the storage operations and the snapshot builder. -/

/-- Lookup characterisation of `FindSnapshot`: when the index holds a hash
for the path, the object table holds bytes for that hash, and those bytes
parse, the lookup succeeds with that hash and the parsed node. -/
theorem findSnapshot_eq (st : StorageForTest) (p : Path) (h : Hash) (bs : List Nat) (f : File)
    (hsnap : mapLookup st.snapshots p = some h)
    (hobj : mapLookup st.objects h = some bs)
    (hparse : ParseFile bs = .ok f) :
    FindSnapshot (some st) p = .ok (some (h, f)) := by
  obtain ⟨o, sn, c, cm⟩ := st
  cases sn with
  | none => simp [mapLookup] at hsnap
  | some snaps =>
    cases o with
    | none => simp [mapLookup] at hobj
    | some objs =>
      simp only [mapLookup] at hsnap hobj
      simp only [FindSnapshot, hsnap, hobj, hparse]

/-- Caching path metadata leaves the snapshot index and the object table
untouched, so lookups are unchanged. -/
theorem findSnapshot_cachePathInfo (st : StorageForTest) (p p' : Path) (info : FileInfo) :
    FindSnapshot ((CachePathInfo (some st) p info).2) p' = FindSnapshot (some st) p' := rfl

/-- Replacing only the cache fields of a state does not change lookups. -/
theorem findSnapshot_cacheFields (st : StorageForTest) (c : Option (List (Path × FileInfo)))
    (cm : Option (List (Path × Int))) (p : Path) :
    FindSnapshot (some ⟨st.objects, st.snapshots, c, cm⟩) p = FindSnapshot (some st) p := rfl

/-- Immediately after caching a path's metadata, that metadata matches the
cache. -/
theorem pathInfoMatchesCache_cachePathInfo (st : StorageForTest) (p : Path) (info : FileInfo) :
    PathInfoMatchesCache ((CachePathInfo (some st) p info).2) p info = true := by
  simp [CachePathInfo, PathInfoMatchesCache, mapInsert, mapLookup, alookup_upsert, sameFile]

/-- Successful persist step: it returns the hash and node it stored, the
stored metadata now matches the cache, and looking the path up returns
exactly the stored pair. -/
theorem persistNew_post (st : StorageForTest) (p : Path) (info : FileInfo) (ch : Hash)
    (mode : Nat) (parents : List Hash) (h : Hash) (f : File) (s1 : Option StorageForTest)
    (hrun : persistNew (some st) p info ch mode parents = (.ok (some (h, f)), s1)) :
    PathInfoMatchesCache s1 p info = true ∧ FindSnapshot s1 p = .ok (some (h, f)) := by
  have hred : persistNew (some st) p info ch mode parents
      = (.ok (some (hashBytes (serializeFile (snapLeaf ch mode parents)),
                    snapLeaf ch mode parents)),
         some ⟨mapInsert st.objects (hashBytes (serializeFile (snapLeaf ch mode parents)))
                 (serializeFile (snapLeaf ch mode parents)),
               mapInsert st.snapshots p (hashBytes (serializeFile (snapLeaf ch mode parents))),
               mapInsert st.cache p info,
               mapInsert st.cacheModTime p info.modTime⟩) := rfl
  rw [hred, Prod.mk.injEq] at hrun
  obtain ⟨hr, hs⟩ := hrun
  simp only [Except.ok.injEq, Option.some.injEq, Prod.mk.injEq] at hr
  obtain ⟨hh, hf⟩ := hr
  subst hh
  subst hf
  subst hs
  constructor
  · exact pathInfoMatchesCache_cachePathInfo
      ⟨mapInsert st.objects (hashBytes (serializeFile (snapLeaf ch mode parents)))
          (serializeFile (snapLeaf ch mode parents)),
        mapInsert st.snapshots p (hashBytes (serializeFile (snapLeaf ch mode parents))),
        st.cache, st.cacheModTime⟩ p info
  · refine findSnapshot_eq _ p _ (serializeFile (snapLeaf ch mode parents)) _ ?_ ?_ ?_
    · simp [mapLookup_mapInsert]
    · simp [mapLookup_mapInsert]
    · exact parseFile_serializeFile _

/-- Successful dedup-or-persist step: afterwards the observed metadata
matches the cache and looking the path up returns exactly the returned
pair. -/
theorem finishSnapshot_post (st : StorageForTest) (p : Path) (info : FileInfo) (ch : Hash)
    (mode : Nat) (h : Hash) (f : File) (s1 : Option StorageForTest)
    (hrun : finishSnapshot (some st) p info ch mode = (.ok (some (h, f)), s1)) :
    PathInfoMatchesCache s1 p info = true ∧ FindSnapshot s1 p = .ok (some (h, f)) := by
  unfold finishSnapshot at hrun
  split at hrun
  · -- lookup of the prior snapshot failed
    simp at hrun
  · -- a prior snapshot exists
    rename_i ph pf heq
    by_cases hsame : sameLeafContent pf ch = true
    · rw [if_pos hsame] at hrun
      simp only [CachePathInfo] at hrun
      rw [Prod.mk.injEq] at hrun
      obtain ⟨hr, hs⟩ := hrun
      simp only [Except.ok.injEq, Option.some.injEq, Prod.mk.injEq] at hr
      obtain ⟨hph, hpf⟩ := hr
      subst hph
      subst hpf
      subst hs
      constructor
      · exact pathInfoMatchesCache_cachePathInfo st p info
      · rw [findSnapshot_cacheFields st (mapInsert st.cache p info)
          (mapInsert st.cacheModTime p info.modTime) p]
        exact heq
    · rw [if_neg hsame] at hrun
      exact persistNew_post st p info ch mode [ph] h f s1 hrun
  · -- the path was never snapshotted
    exact persistNew_post st p info ch mode [] h f s1 hrun

/-- Successful snapshot of a regular file: afterwards the file's metadata
matches the change-detection cache and looking the path up returns exactly
the pair the builder returned. -/
theorem current_post (s0 : Option StorageForTest) (p : Path) (content : List Nat) (mode : Nat)
    (info : FileInfo) (h : Hash) (f : File) (s1 : Option StorageForTest)
    (hrun : Current s0 p content mode info = (.ok (some (h, f)), s1)) :
    PathInfoMatchesCache s1 p info = true ∧ FindSnapshot s1 p = .ok (some (h, f)) := by
  unfold Current at hrun
  rw [if_neg (by simp [Exclude])] at hrun
  by_cases hc : PathInfoMatchesCache s0 p info = true
  · rw [if_pos hc] at hrun
    rw [Prod.mk.injEq] at hrun
    obtain ⟨hr, hs⟩ := hrun
    subst hs
    exact ⟨hc, hr⟩
  · rw [if_neg hc] at hrun
    cases s0 with
    | none => simp [StoreObject] at hrun
    | some st =>
      simp only [StoreObject] at hrun
      exact finishSnapshot_post _ p info (hashBytes content) mode h f s1 hrun

/-! Claim theorems. -/

/-- CLAIM C1: for every path whose file content is unchanged between two
successive calls, snapshotting it twice via `Current` yields an identical
`Hash` and an identical serialized `File` both times — stated as: whenever a
first call succeeds with a snapshot, a second call on the resulting storage
state with the same observable file returns the very same result pair
(hence the same hash and the same `File`, so the same serialization) and
leaves the state unchanged. -/
theorem current_idempotent (s0 : Option StorageForTest) (p : Path) (content : List Nat)
    (mode : Nat) (info : FileInfo) (h : Hash) (f : File)
    (hrun : (Current s0 p content mode info).1 = .ok (some (h, f))) :
    Current (Current s0 p content mode info).2 p content mode info
      = Current s0 p content mode info := by
  rcases hC : Current s0 p content mode info with ⟨r, s1⟩
  rw [hC] at hrun
  have hr : r = .ok (some (h, f)) := hrun
  subst hr
  have hpost := current_post s0 p content mode info h f s1 hC
  show Current s1 p content mode info = (.ok (some (h, f)), s1)
  unfold Current
  rw [if_neg (by simp [Exclude])]
  rw [if_pos hpost.1, hpost.2]

/-- Witness for C1: a concrete file snapshotted from fresh storage, then
snapshotted again unchanged; the second run reproduces the first. -/
theorem current_idempotent_witness :
    Current (Current (some emptyStorage) pW contentW 448 infoW).2 pW contentW 448 infoW
      = Current (some emptyStorage) pW contentW 448 infoW :=
  current_idempotent (some emptyStorage) pW contentW 448 infoW hashW fileW (by decide)

/-- CLAIM C3: when a path's current metadata matches the change-detection
cache, `Current` returns the previously recorded pair straight from
`FindSnapshot`, leaves the storage state untouched, and never looks at the
file's content — the result is the same for every content and mode, even
when the actual content differs from what was hashed. -/
theorem current_cache_hit (s : Option StorageForTest) (p : Path) (content : List Nat)
    (mode : Nat) (info : FileInfo)
    (hhit : PathInfoMatchesCache s p info = true) :
    Current s p content mode info = (FindSnapshot s p, s)
      ∧ ∀ content2 mode2, Current s p content2 mode2 info = Current s p content mode info := by
  have hbranch : ∀ c m, Current s p c m info = (FindSnapshot s p, s) := by
    intro c m
    unfold Current
    rw [if_neg (by simp [Exclude]), if_pos hhit]
  exact ⟨hbranch content mode, fun c2 m2 => (hbranch c2 m2).trans (hbranch content mode).symm⟩

/-- Witness for C3: after one snapshot of the concrete file, a second call
with the same metadata but different content bytes returns the cached pair
verbatim. -/
theorem current_cache_hit_witness :
    Current sC3 pW contentW2 448 infoW = (FindSnapshot sC3 pW, sC3) :=
  (current_cache_hit sC3 pW contentW2 448 infoW (by decide)).1

/-- CLAIM C2: a regular file with a prior snapshot of hash `hPrev` whose
content is then modified — so the stored leaf's content hash differs from
the new content's hash and the metadata change defeats the cache — gets,
from the next `Current` call, a new leaf whose hash differs from `hPrev`
and whose `Parents` sequence has `hPrev` as its first (and only) entry. -/
theorem current_change (st : StorageForTest) (p : Path) (content : List Nat) (mode : Nat)
    (info : FileInfo) (hPrev : Hash) (bsPrev : List Nat) (fPrev : File) (cPrev : Hash)
    (mPrev : Nat)
    (hsnap : mapLookup st.snapshots p = some hPrev)
    (hobj : mapLookup st.objects hPrev = some bsPrev)
    (hparse : ParseFile bsPrev = .ok fPrev)
    (hwf : hPrev = hashBytes bsPrev)
    (hkind : fPrev.kind = .regular cPrev mPrev)
    (hdiff : hashBytes content ≠ cPrev)
    (hmiss : PathInfoMatchesCache (some st) p info = false) :
    (Current (some st) p content mode info).1
        = .ok (some (hashBytes (serializeFile (snapLeaf (hashBytes content) mode [hPrev])),
                     snapLeaf (hashBytes content) mode [hPrev]))
      ∧ hashBytes (serializeFile (snapLeaf (hashBytes content) mode [hPrev])) ≠ hPrev
      ∧ (snapLeaf (hashBytes content) mode [hPrev]).parents.head? = some hPrev := by
  have hfind1 : FindSnapshot (some ⟨mapInsert st.objects (hashBytes content) content,
      st.snapshots, st.cache, st.cacheModTime⟩) p = .ok (some (hPrev, fPrev)) := by
    refine findSnapshot_eq _ p hPrev bsPrev fPrev hsnap ?_ hparse
    show mapLookup (mapInsert st.objects (hashBytes content) content) hPrev = some bsPrev
    rw [mapLookup_mapInsert]
    by_cases h' : hPrev = hashBytes content
    · rw [if_pos h']
      have hbs : bsPrev = content := by
        have h2 : hashBytes bsPrev = hashBytes content := by rw [← hwf, h']
        simpa [hashBytes, Hash.mk.injEq] using h2
      rw [hbs]
    · rw [if_neg h']
      exact hobj
  have hsame : sameLeafContent fPrev (hashBytes content) = false := by
    unfold sameLeafContent
    rw [hkind]
    exact beq_eq_false_iff_ne.mpr (fun he => hdiff he.symm)
  have hA : Current (some st) p content mode info
      = finishSnapshot (some ⟨mapInsert st.objects (hashBytes content) content,
          st.snapshots, st.cache, st.cacheModTime⟩) p info (hashBytes content) mode := by
    unfold Current
    rw [if_neg (by simp [Exclude]), if_neg (by simp [hmiss])]
    simp only [StoreObject]
  have hB : finishSnapshot (some ⟨mapInsert st.objects (hashBytes content) content,
      st.snapshots, st.cache, st.cacheModTime⟩) p info (hashBytes content) mode
      = persistNew (some ⟨mapInsert st.objects (hashBytes content) content,
          st.snapshots, st.cache, st.cacheModTime⟩) p info (hashBytes content) mode [hPrev] := by
    unfold finishSnapshot
    rw [hfind1]
    simp only [hsame, Bool.false_eq_true, if_false]
  refine ⟨?_, ?_, rfl⟩
  · rw [hA, hB]
    rfl
  · intro hcontra
    have hb : serializeFile (snapLeaf (hashBytes content) mode [hPrev]) = bsPrev := by
      have h2 := hcontra.trans hwf
      simpa [hashBytes, Hash.mk.injEq] using h2
    have hp2 : ParseFile bsPrev = .ok (snapLeaf (hashBytes content) mode [hPrev]) := by
      rw [← hb]
      exact parseFile_serializeFile _
    rw [hparse] at hp2
    have hff : fPrev = snapLeaf (hashBytes content) mode [hPrev] := by
      simpa using hp2
    rw [hff] at hkind
    simp only [snapLeaf, FileKind.regular.injEq] at hkind
    exact hdiff hkind.1

/-- Witness for C2: the concrete file with a stored first snapshot is
rewritten with different bytes and a later modification time; the new
snapshot's hash differs from the old one and lists it as first parent. -/
theorem current_change_witness :
    (Current (some storeW) pW contentW2 448 infoW2).1
        = .ok (some (hashBytes (serializeFile (snapLeaf (hashBytes contentW2) 448 [hashW])),
                     snapLeaf (hashBytes contentW2) 448 [hashW]))
      ∧ hashBytes (serializeFile (snapLeaf (hashBytes contentW2) 448 [hashW])) ≠ hashW
      ∧ (snapLeaf (hashBytes contentW2) 448 [hashW]).parents.head? = some hashW :=
  current_change storeW pW contentW2 448 infoW2 hashW bytesW fileW (hashBytes contentW) 448
    (by decide) (by decide) (by decide) (by decide) (by decide) (by decide) (by decide)

/-- CLAIM C4: `PathInfoMatchesCache` returns true exactly when the storage
is non-nil, a cache entry and a cached modification time exist for the path,
the cached metadata denotes the same file as the current metadata
(`os.SameFile`), and the cached modification time equals the current one;
every ambiguous situation yields false. -/
theorem pathInfoMatchesCache_characterisation (s : Option StorageForTest) (p : Path)
    (info : FileInfo) :
    PathInfoMatchesCache s p info = true ↔
      ∃ st cached cmt, s = some st
        ∧ mapLookup st.cache p = some cached
        ∧ mapLookup st.cacheModTime p = some cmt
        ∧ sameFile cached info = true
        ∧ cmt = info.modTime := by
  constructor
  · intro h
    cases s with
    | none => simp [PathInfoMatchesCache] at h
    | some st =>
      simp only [PathInfoMatchesCache] at h
      split at h
      · exact absurd h (by simp)
      · rename_i c hc
        split at h
        · exact absurd h (by simp)
        · rename_i cached hal
          split at h
          · exact absurd h (by simp)
          · rename_i cmt hcm
            rw [Bool.and_eq_true] at h
            refine ⟨st, cached, cmt, rfl, ?_, hcm, h.1, ?_⟩
            · simp [mapLookup, hc, hal]
            · exact beq_iff_eq.mp h.2
  · rintro ⟨st, cached, cmt, rfl, hcl, hcm, hsf, hmt⟩
    cases hc : st.cache with
    | none =>
      rw [hc] at hcl
      simp [mapLookup] at hcl
    | some c =>
      rw [hc] at hcl
      simp only [mapLookup] at hcl
      simp [PathInfoMatchesCache, hc, hcl, hcm, hsf, hmt]

/-- CLAIM C7: parsing inverts serialization for every `File` value, and a
`File` stored through `StoreSnapshot` and read back through `FindSnapshot`
comes back as an equal `File` (under the hash of its serialization). -/
theorem file_roundtrip (f : File) (st : StorageForTest) (p : Path) :
    ParseFile (serializeFile f) = .ok f
      ∧ FindSnapshot (StoreSnapshot (some st) p f).2 p
          = .ok (some (hashBytes (serializeFile f), f)) := by
  refine ⟨parseFile_serializeFile f, ?_⟩
  show FindSnapshot (some ⟨mapInsert st.objects (hashBytes (serializeFile f)) (serializeFile f),
      mapInsert st.snapshots p (hashBytes (serializeFile f)), st.cache, st.cacheModTime⟩) p = _
  refine findSnapshot_eq _ p _ (serializeFile f) f ?_ ?_ (parseFile_serializeFile f)
  · simp [mapLookup_mapInsert]
  · simp [mapLookup_mapInsert]

/-- CLAIM C8: a successful `StoreSnapshot` serializes the node, stores the
bytes as an object keyed by their hash, advances the path index to that
hash, and returns it; a subsequent `FindSnapshot` on the same path returns
the same hash (with the stored node). -/
theorem storeSnapshot_spec (st : StorageForTest) (p : Path) (f : File) :
    StoreSnapshot (some st) p f
        = (.ok (hashBytes (serializeFile f)),
           some ⟨mapInsert st.objects (hashBytes (serializeFile f)) (serializeFile f),
                 mapInsert st.snapshots p (hashBytes (serializeFile f)),
                 st.cache, st.cacheModTime⟩)
      ∧ mapLookup (mapInsert st.objects (hashBytes (serializeFile f)) (serializeFile f))
          (hashBytes (serializeFile f)) = some (serializeFile f)
      ∧ mapLookup (mapInsert st.snapshots p (hashBytes (serializeFile f))) p
          = some (hashBytes (serializeFile f))
      ∧ FindSnapshot (StoreSnapshot (some st) p f).2 p
          = .ok (some (hashBytes (serializeFile f), f)) := by
  refine ⟨rfl, by simp [mapLookup_mapInsert], by simp [mapLookup_mapInsert], ?_⟩
  show FindSnapshot (some ⟨mapInsert st.objects (hashBytes (serializeFile f)) (serializeFile f),
      mapInsert st.snapshots p (hashBytes (serializeFile f)), st.cache, st.cacheModTime⟩) p = _
  refine findSnapshot_eq _ p _ (serializeFile f) f ?_ ?_ (parseFile_serializeFile f)
  · simp [mapLookup_mapInsert]
  · simp [mapLookup_mapInsert]

/-- CLAIM C9: `StoreObject` is idempotent — storing the same bytes twice
returns the same hash both times and the second store leaves the storage
state exactly as the first left it, with that hash keyed to those bytes. -/
theorem storeObject_idempotent (st : StorageForTest) (bs : List Nat) :
    StoreObject (some st) bs
        = (.ok (hashBytes bs), some ⟨mapInsert st.objects (hashBytes bs) bs,
            st.snapshots, st.cache, st.cacheModTime⟩)
      ∧ StoreObject ((StoreObject (some st) bs).2) bs = StoreObject (some st) bs
      ∧ mapLookup (mapInsert st.objects (hashBytes bs) bs) (hashBytes bs) = some bs := by
  refine ⟨rfl, ?_, by simp [mapLookup_mapInsert]⟩
  show (Except.ok (hashBytes bs),
      some (⟨mapInsert (mapInsert st.objects (hashBytes bs) bs) (hashBytes bs) bs,
        st.snapshots, st.cache, st.cacheModTime⟩ : StorageForTest))
      = StoreObject (some st) bs
  rw [mapInsert_mapInsert_self]
  rfl

/-- CLAIM C10: every storage method tolerates a nil receiver — the mutating
and reading operations return the storage-not-set error with no state to
read or change, `PathInfoMatchesCache` returns false, and `Exclude` returns
false. -/
theorem nilStorage_safe (bs : List Nat) (p : Path) (f : File) (info : FileInfo) :
    StoreObject none bs = (.error errStorageNotSet, none)
      ∧ FindSnapshot none p = .error errStorageNotSet
      ∧ StoreSnapshot none p f = (.error errStorageNotSet, none)
      ∧ CachePathInfo none p info = (.error errStorageNotSet, none)
      ∧ PathInfoMatchesCache none p info = false
      ∧ Exclude none p = false :=
  ⟨rfl, rfl, rfl, rfl, rfl, rfl⟩

/-- CLAIM C5 counterexample: a name that is neither a valid hash literal nor
a path with a recorded snapshot — the claim demands an error, but
`resolveSnapshot` returns a nil hash together with a nil error, because the
absent-snapshot lookup result `(nil, nil, nil)` passes the `err == nil`
check. -/
theorem resolveSnapshot_counterexample :
    ParseHash nameW = .error errBadHash
      ∧ FindSnapshot (some emptyStorage) (cwdW ++ nameW) = .ok none
      ∧ resolveSnapshot absW (some emptyStorage) nameW = (none, none) :=
  ⟨by decide, rfl, by decide⟩

/-- CLAIM C5 as amended: `resolveSnapshot` returns the parsed hash for a
valid hash literal; otherwise it resolves the name to an absolute path and
looks it up, erring when the resolution or the lookup errs, returning the
found hash when the lookup finds a snapshot — and returning a nil hash with
a nil error (not an error) when the lookup reports the path as never
snapshotted. -/
theorem resolveSnapshot_cases (abs : String → Except String String)
    (s : Option StorageForTest) (name : String) :
    (∀ h, ParseHash name = .ok h → resolveSnapshot abs s name = (some h, none))
      ∧ (∀ e, ParseHash name = .error e →
          (∀ ea, abs name = .error ea →
              resolveSnapshot abs s name = (none, some errAbsPath))
            ∧ (∀ a, abs name = .ok a →
                (∀ ef, FindSnapshot s a = .error ef →
                    resolveSnapshot abs s name = (none, some errUnresolved))
                  ∧ (FindSnapshot s a = .ok none →
                      resolveSnapshot abs s name = (none, none))
                  ∧ (∀ h f, FindSnapshot s a = .ok (some (h, f)) →
                      resolveSnapshot abs s name = (some h, none)))) := by
  constructor
  · intro h hp
    simp only [resolveSnapshot, hp]
  · intro e hp
    constructor
    · intro ea ha
      simp only [resolveSnapshot, hp, ha]
    · intro a ha
      refine ⟨?_, ?_, ?_⟩
      · intro ef hf
        simp only [resolveSnapshot, hp, ha, hf]
      · intro hf
        simp only [resolveSnapshot, hp, ha, hf, Option.map_none']
      · intro h f hf
        simp only [resolveSnapshot, hp, ha, hf, Option.map_some']

/-- Witness for the amended C5: the concrete hash literal resolves to its
parsed hash with no error. -/
theorem resolveSnapshot_cases_witness :
    resolveSnapshot absW (some emptyStorage) hashNameW = (some hashValW, none) :=
  (resolveSnapshot_cases absW (some emptyStorage) hashNameW).1 hashValW (by decide)

/-- CLAIM C6: `Run` prints the usage text and returns 1 when no subcommand
name is supplied (fewer than two elements of `os.Args`) and when the name
is not one of the four bound subcommands; when a subcommand reports an
error, the error is printed and — subcommands honouring the documented
convention that a failure carries a non-zero code — the returned code is
non-zero; and a zero return happens only when a subcommand ran and
succeeded. -/
theorem run_spec (cExport cLog cMerge cSnapshot : Subcommand) (prog : String)
    (rest : List String)
    (hwell : ∀ sub cmd, commandMap cExport cLog cMerge cSnapshot sub = some cmd →
        ∀ pr args, (cmd pr args).2 ≠ none → (cmd pr args).1 ≠ 0) :
    (rest = [] → Run (commandMap cExport cLog cMerge cSnapshot) prog rest
        = (1, [usageText prog]))
      ∧ (∀ sub cargs, rest = sub :: cargs →
          commandMap cExport cLog cMerge cSnapshot sub = none →
          Run (commandMap cExport cLog cMerge cSnapshot) prog rest
            = (1, [unknownSubcommandText sub, usageText prog]))
      ∧ (∀ sub cargs cmd, rest = sub :: cargs →
          commandMap cExport cLog cMerge cSnapshot sub = some cmd →
          ∀ e, (cmd prog cargs).2 = some e →
            Run (commandMap cExport cLog cMerge cSnapshot) prog rest
              = ((cmd prog cargs).1, [subcommandFailureText sub ++ e])
            ∧ (cmd prog cargs).1 ≠ 0)
      ∧ ((Run (commandMap cExport cLog cMerge cSnapshot) prog rest).1 = 0 →
          ∃ sub cargs cmd, rest = sub :: cargs
            ∧ commandMap cExport cLog cMerge cSnapshot sub = some cmd
            ∧ (cmd prog cargs).1 = 0 ∧ (cmd prog cargs).2 = none) := by
  refine ⟨?_, ?_, ?_, ?_⟩
  · rintro rfl
    rfl
  · intro sub cargs hrest hnone
    subst hrest
    simp only [Run, hnone]
  · intro sub cargs cmd hrest hsome e he
    subst hrest
    constructor
    · rcases hc : cmd prog cargs with ⟨ret, err⟩
      have he2 : err = some e := by
        rw [hc] at he
        exact he
      subst he2
      simp only [Run, hsome, hc]
    · apply hwell sub cmd hsome prog cargs
      rw [he]
      simp
  · intro h0
    cases rest with
    | nil => simp [Run] at h0
    | cons sub cargs =>
      cases hm : commandMap cExport cLog cMerge cSnapshot sub with
      | none => simp [Run, hm] at h0
      | some cmd =>
        rcases hc : cmd prog cargs with ⟨ret, err⟩
        have hrun1 : (Run (commandMap cExport cLog cMerge cSnapshot) prog (sub :: cargs)).1
            = ret := by
          simp only [Run, hm, hc]
          cases err <;> rfl
        rw [hrun1] at h0
        cases err with
        | some e =>
          have hne := hwell sub cmd hm prog cargs (by rw [hc]; simp)
          rw [hc] at hne
          exact absurd h0 hne
        | none =>
          refine ⟨sub, cargs, cmd, rfl, hm, ?_, ?_⟩
          · rw [hc]
            exact h0
          · rw [hc]

/-- Witness for C6: with the four subcommands instantiated by an
always-succeeding command, running with no arguments prints the usage text
and exits 1. -/
theorem run_spec_witness :
    Run (commandMap cGoodW cGoodW cGoodW cGoodW) progW [] = (1, [usageText progW]) :=
  (run_spec cGoodW cGoodW cGoodW cGoodW progW []
    (by
      intro sub cmd hm pr args hne
      unfold commandMap at hm
      split_ifs at hm
      all_goals
        first
          | exact Option.noConfusion hm
          | (injection hm with hmc; subst hmc; exact absurd rfl hne))).1 rfl

end Rvcs
